import Mathlib

/-!
Shallow embedding of the vendor-price reconciliation and product-matching
engine of `src/scrape/src/vendor_prices.py`.  Python strings are modelled as
Lean `String` (ASCII assumed for case folding, as all code constants are
ASCII), Python `None`-able values as `Option`, Python dicts used as lookup
tables as association lists, Python sets of group ids as `List Int`
(membership and non-emptiness are the only operations used), and prices
(Python floats on which the code performs no arithmetic) as `Option Rat`.
All functions are total, mirroring that the Python code raises no exception
on these paths.
-/

/-- Python whitespace for `str.strip` / `str.split` (ASCII range). -/
def isPySpace (c : Char) : Bool :=
  c = ' ' || c = '\t' || c = '\n' || c = '\r' || c = '\x0b' || c = '\x0c'

/-- Regex word character (`\w` over ASCII), used for `\b` boundaries. -/
def isWordChar (c : Char) : Bool :=
  c.isAlpha || c.isDigit || c = '_'

def stripChars (l : List Char) : List Char :=
  ((l.dropWhile isPySpace).reverse.dropWhile isPySpace).reverse

/-- Python `str.strip()`. -/
def pyStrip (s : String) : String := String.mk (stripChars s.toList)

/-- Python `str.lower()` (ASCII). -/
def pyLower (s : String) : String := String.mk (s.toList.map Char.toLower)

/-- Python `str.upper()` (ASCII). -/
def pyUpper (s : String) : String := String.mk (s.toList.map Char.toUpper)

/-- Python truthiness of an optional string: `None` and `""` are falsy. -/
def pyTruthyStr : Option String → Bool
  | none => false
  | some s => s != ""

def listContainsSub (needle hay : List Char) : Bool :=
  (List.range (hay.length + 1)).any (fun i => needle.isPrefixOf (hay.drop i))

/-- Python substring test `needle in hay`. -/
def containsSub (needle hay : String) : Bool :=
  listContainsSub needle.toList hay.toList

/-- Python `s.endswith(t)`. -/
def pyEndsWith (s t : String) : Bool :=
  t.toList.reverse.isPrefixOf s.toList.reverse

/-- Python `str.split()` with no argument: split on whitespace runs, no empties. -/
def pyWhitespaceSplitAux : List Char → List Char → List String
  | [], acc => if acc.isEmpty then [] else [String.mk acc.reverse]
  | c :: rest, acc =>
    if isPySpace c then
      if acc.isEmpty then pyWhitespaceSplitAux rest []
      else String.mk acc.reverse :: pyWhitespaceSplitAux rest []
    else pyWhitespaceSplitAux rest (c :: acc)

def pyWhitespaceSplit (s : String) : List String := pyWhitespaceSplitAux s.toList []

/-- Python `s.split(":", 1)`: `none` when `s` has no colon, otherwise the
parts before and after the first colon. -/
def splitOnceColon (s : String) : Option (String × String) :=
  let l := s.toList
  let before := l.takeWhile (fun c => !(c = ':'))
  let rest := l.drop before.length
  match rest with
  | [] => none
  | _ :: after => some (String.mk before, String.mk after)

/-- Python `s.split(":")[-1]`: the text after the last colon (whole string
when there is no colon). -/
def afterLastColon (s : String) : String :=
  match (s.splitOn ":").getLast? with
  | some t => t
  | none => s

/- ===== RarityNormalizer: `_normalize_rarity_value` and friends ===== -/

/-- `RARITY_EQUIVALENTS` table from the source. -/
def rarityEquivalents : List (String × String) :=
  [("legend rare", "lr"), ("legendary rare", "lr"),
   ("rare", "r"), ("uncommon", "u"), ("common", "c")]

/-- `RARITY_PRIORITY` from the source. -/
def rarityPriority : List String := ["lr", "r", "u", "c"]

/-- `RARITY_PRIORITY_MAP`: enumeration of `RARITY_PRIORITY`. -/
def rarityPriorityMap : List (String × Nat) :=
  [("lr", 0), ("r", 1), ("u", 2), ("c", 3)]

def countTrailingPlus (l : List Char) : Nat :=
  (l.reverse.takeWhile (fun c => c = '+')).length

def dropTrailingPlus (l : List Char) : List Char :=
  (l.reverse.dropWhile (fun c => c = '+')).reverse

/-- `_normalize_rarity_value`. -/
def normalizeRarityValue : Option String → Option String × Nat
  | none => (none, 0)
  | some v =>
    if v = "" then (none, 0)
    else
      let cleaned := pyLower (pyStrip v)
      let plusCount := countTrailingPlus cleaned.toList
      let cleaned2 := pyStrip (String.mk (dropTrailingPlus cleaned.toList))
      let base :=
        match rarityEquivalents.lookup cleaned2 with
        | some b => some b
        | none => if cleaned2 = "" then none else some cleaned2
      (base, plusCount)

/-- `_rarity_strings_equal`. -/
def rarityStringsEqual (a b : Option String) : Bool :=
  let na := normalizeRarityValue a
  let nb := normalizeRarityValue b
  na.1.isSome && na.1 == nb.1 && na.2 == nb.2

/-- `_rarity_sort_key` (lines 139-149 of the source sit after its `return`
and are unreachable, so they are not part of this definition). -/
def raritySortKey (value : Option String) : Nat × Int :=
  let n := normalizeRarityValue value
  let priority := (rarityPriorityMap.lookup (n.1.getD "")).getD rarityPriority.length
  (priority, -(n.2 : Int))

/-- `_rarity_matches_hint`. -/
def rarityMatchesHint (rarity hint : Option String) : Bool :=
  match rarity, hint with
  | some r, some h =>
    if r = "" || h = "" then false
    else
      let rl := pyLower r
      if h = "holofoil" then containsSub "foil" rl || pyEndsWith rl "+"
      else if h = "foil" then containsSub "foil" rl || pyEndsWith rl "+"
      else false
  | _, _ => false

/- ===== `_convert_to_usd` and price assembly ===== -/

/-- `_convert_to_usd`: the body is only `if value is None: return None`;
control then falls off the end of the function (the rest of the conversion
logic sits after the `return` of `_rarity_sort_key` and is never executed),
so Python returns `None` in both cases. -/
def convertToUsd (value : Option Rat) (currency : String)
    (rates : List (String × Rat)) : Option Rat :=
  match value, currency, rates with
  | none, _, _ => none
  | some _, _, _ => none

/-- Python `a or b` on optional floats (`None` and `0.0` are falsy). -/
def pyOrFloat (a b : Option Rat) : Option Rat :=
  match a with
  | some x => if x = 0 then b else some x
  | none => b

/-- The `market_price` / `low_price` / `high_price` fields as assembled in
`_fetch_kanzen_products` and `_fetch_401games_products`:
`_convert_to_usd(value, "cad", currency_rates) or value` for each field. -/
def assembledPrices (priceSingle priceMin priceMax : Option Rat)
    (rates : List (String × Rat)) : Option Rat × Option Rat × Option Rat :=
  (pyOrFloat (convertToUsd priceSingle "cad" rates) priceSingle,
   pyOrFloat (convertToUsd priceMin "cad" rates) priceMin,
   pyOrFloat (convertToUsd priceMax "cad" rates) priceMax)

/- ===== `_parse_401_group_label` ===== -/

structure GroupLabelParts where
  abbreviation : Option String
  name : Option String
  full : Option String
deriving DecidableEq

/-- `_parse_401_group_label`. -/
def parse401GroupLabel (label : Option String) : GroupLabelParts :=
  match label with
  | none => ⟨none, none, none⟩
  | some s =>
    if s = "" then ⟨none, none, none⟩
    else
      let full := some (pyStrip s)
      match splitOnceColon s with
      | some (left, name) =>
        let nm := if pyStrip name = "" then none else some (pyStrip name)
        let left2 := pyStrip left
        let abbr :=
          if left2 = "" then none
          else
            match pyWhitespaceSplit left2 with
            | [] => none
            | t :: _ => some (pyStrip t)
        ⟨abbr, nm, full⟩
      | none =>
        ⟨none, if pyStrip s = "" then none else some (pyStrip s), full⟩

/- ===== Regex models used by `_extract_title_metadata` and the matcher ===== -/

/-- Zero-width `\b` check before position `i` (next pattern char is a word
character in every pattern below, so the boundary holds iff the previous
character is absent or a non-word character). -/
def boundaryBefore (s : List Char) (i : Nat) : Bool :=
  match i with
  | 0 => true
  | Nat.succ j =>
    match s.get? j with
    | some c => !isWordChar c
    | none => true

/-- Zero-width `\b` check after a match whose last character is a word
character: the remaining text is empty or starts with a non-word character. -/
def boundaryAfterOk (rest : List Char) : Bool :=
  match rest with
  | [] => true
  | c :: _ => !isWordChar c

/-- Attempt of `\b([A-Za-z]{2}\d{2}-\d{3})\b` at position `i`. -/
def matchStrictAt (s : List Char) (i : Nat) : Option String :=
  match s.drop i with
  | a :: b :: c :: d :: e :: f :: g :: h :: rest =>
    if a.isAlpha && b.isAlpha && c.isDigit && d.isDigit && e = '-' &&
       f.isDigit && g.isDigit && h.isDigit &&
       boundaryBefore s i && boundaryAfterOk rest
    then some (String.mk [a, b, c, d, e, f, g, h])
    else none
  | _ => none

/-- Attempt of `\b([A-Za-z]{k}-\d{3})\b` at position `i` for a fixed letter
count `k`. -/
def looseAt (s : List Char) (i k : Nat) : Option String :=
  let letters := (s.drop i).take k
  let rest1 := (s.drop i).drop k
  if letters.length = k && letters.all Char.isAlpha then
    match rest1 with
    | dash :: d1 :: d2 :: d3 :: rest =>
      if dash = '-' && d1.isDigit && d2.isDigit && d3.isDigit &&
         boundaryBefore s i && boundaryAfterOk rest
      then some (String.mk (letters ++ dash :: [d1, d2, d3]))
      else none
    | _ => none
  else none

/-- Attempt of `\b([A-Za-z]{1,4}-\d{3})\b` at position `i`: the greedy
quantifier tries four letters first, backing off to one. -/
def matchLooseAt (s : List Char) (i : Nat) : Option String :=
  match looseAt s i 4 with
  | some m => some m
  | none =>
    match looseAt s i 3 with
    | some m => some m
    | none =>
      match looseAt s i 2 with
      | some m => some m
      | none => looseAt s i 1

/-- Attempt of `\[([^\]]+)\]` at position `i`. -/
def matchBracketAt (s : List Char) (i : Nat) : Option String :=
  match s.drop i with
  | '[' :: rest =>
    let run := rest.takeWhile (fun c => !(c = ']'))
    if run.length = 0 then none
    else
      match rest.drop run.length with
      | ']' :: _ => some (String.mk run)
      | _ => none
  | _ => none

def isPhraseChar (c : Char) : Bool :=
  c.isAlpha || c.isDigit || c = '+' || isPySpace c

/-- Attempt of `\(([A-Za-z0-9\+\s]+)\)` at position `i`. -/
def matchPhraseAt (s : List Char) (i : Nat) : Option String :=
  match s.drop i with
  | '(' :: rest =>
    let run := rest.takeWhile isPhraseChar
    if run.length = 0 then none
    else
      match rest.drop run.length with
      | ')' :: _ => some (String.mk run)
      | _ => none
  | _ => none

/-- `re.search` scan: try positions left to right, first success wins. -/
def scanFirst (f : Nat → Option String) : Nat → Nat → Option String
  | 0, _ => none
  | fuel + 1, i =>
    match f i with
    | some m => some m
    | none => scanFirst f fuel (i + 1)

def firstStrict (title : String) : Option String :=
  scanFirst (matchStrictAt title.toList) (title.toList.length + 1) 0

def firstLoose (title : String) : Option String :=
  scanFirst (matchLooseAt title.toList) (title.toList.length + 1) 0

def firstBracket (title : String) : Option String :=
  scanFirst (matchBracketAt title.toList) (title.toList.length + 1) 0

def firstPhrase (title : String) : Option String :=
  scanFirst (matchPhraseAt title.toList) (title.toList.length + 1) 0

/- ===== `_extract_title_metadata` ===== -/

structure TitleMetadata where
  number : Option String
  group : Option String
  rarityHint : Option String
deriving DecidableEq

/-- `_extract_title_metadata`: the `_meta_number`, `_meta_group` and
`_meta_rarity_hint` entries of the returned dict. -/
def extractTitleMetadata (title : String) : TitleMetadata :=
  let number :=
    match firstStrict title with
    | some m => some m
    | none => firstLoose title
  let group :=
    match firstBracket title with
    | some g => some (pyStrip g)
    | none => none
  let titleLower := pyLower title
  let rarityHint :=
    if containsSub "holofoil" titleLower then some "holofoil"
    else if containsSub "foil" titleLower then some "foil"
    else none
  ⟨number, group, rarityHint⟩

/- ===== Data model for the matcher ===== -/

/-- A product row as loaded by `_load_products_by_number` (`rarity` is the
value extracted from `extended_data_raw`). -/
structure CatalogProduct where
  product_id : Int
  group_id : Option Int
  rarity : Option String
deriving DecidableEq

/-- A vendor listing record: the fields of the assembled record dict that
the matcher and the dedupe step read.  `metaNumber`, `metaGroup`,
`metaRarityHint`, `metaAbbrev`, `metaNameOnly` model the `_meta_number`,
`_meta_group`, `_meta_rarity_hint`, `_meta_vendor_group_abbrev` and
`_meta_vendor_group_name_only` keys (absent keys are `none`). -/
structure VendorRecord where
  vendor : String
  title : String
  metaNumber : Option String
  metaGroup : Option String
  metaRarityHint : Option String
  metaAbbrev : Option String
  metaNameOnly : Option String
  market_price : Option Rat
  low_price : Option Rat
  high_price : Option Rat
deriving DecidableEq

/-- The diagnostic `print` lines of `_match_product_for_record`, as events. -/
inductive LogEvent where
  | noProductNumber (title : String)
  | noProductsForNumber (number title : String)
  | unableToMatch (title number : String)
deriving DecidableEq

/- ===== `resolve_group_ids` (closure inside `_match_product_for_record`) ===== -/

/-- Group ids collected by the abbreviation strategy: union of the id sets of
all indexed names starting with `abbrKey`. -/
def abbrevMatches (gbn : List (String × List Int)) (abbrKey : String) : List Int :=
  ((gbn.filter (fun p => p.1.startsWith abbrKey)).map Prod.snd).flatten

/-- Group ids collected by the name-only strategy: union of the id sets of
all indexed names whose stripped text after the last colon equals `target`. -/
def nameOnlyMatches (gbn : List (String × List Int)) (target : String) : List Int :=
  ((gbn.filter (fun p => pyStrip (afterLastColon p.1) == target)).map Prod.snd).flatten

/-- The `name_hint` (`_meta_vendor_group_name_only`) block of
`resolve_group_ids`, entered after the abbreviation strategy found nothing. -/
def resolveNameOnly (rec : VendorRecord) (gbn : List (String × List Int))
    (hintUsed : Bool) : Option (List Int) × Bool :=
  match rec.metaNameOnly with
  | some nh =>
    if nh = "" then (none, hintUsed)
    else
      let target := pyLower (pyStrip nh)
      let found := nameOnlyMatches gbn target
      if found.isEmpty then (none, true) else (some found, true)
  | none => (none, hintUsed)

/-- The `store.401games.ca` branch of `resolve_group_ids`: abbreviation
prefix strategy, then name-only suffix strategy. -/
def resolveVendor401 (rec : VendorRecord) (gbn : List (String × List Int))
    (hintUsed : Bool) : Option (List Int) × Bool :=
  match rec.metaAbbrev with
  | some ab =>
    if ab = "" then resolveNameOnly rec gbn hintUsed
    else
      let abbrKey := pyLower (pyStrip ab)
      let found := abbrevMatches gbn abbrKey
      if found.isEmpty then resolveNameOnly rec gbn true
      else (some found, true)
  | none => resolveNameOnly rec gbn hintUsed

/-- Continuation of `resolve_group_ids` after the exact group-label lookup
failed or was skipped. -/
def resolveAfterGroupHint (rec : VendorRecord) (gbn : List (String × List Int))
    (hintUsed : Bool) : Option (List Int) × Bool :=
  if rec.vendor = "store.401games.ca" then resolveVendor401 rec gbn hintUsed
  else (none, hintUsed)

/-- `resolve_group_ids`: strategy (a) exact normalized group-label lookup,
then for 401games records (b) abbreviation prefix and (c) name-only suffix
matches.  Returns the resolved id set (or `none`) and the `hint_used` flag. -/
def resolveGroupIds (rec : VendorRecord) (gbn : List (String × List Int)) :
    Option (List Int) × Bool :=
  match rec.metaGroup with
  | some g =>
    if g = "" then resolveAfterGroupHint rec gbn false
    else
      match gbn.lookup (pyLower (pyStrip g)) with
      | some ids => (some ids, true)
      | none => resolveAfterGroupHint rec gbn true
  | none => resolveAfterGroupHint rec gbn false

/- ===== Stable sort by `_rarity_sort_key` (Python `sorted`) ===== -/

/-- Strict lexicographic order on `_rarity_sort_key` tuples, as Python
compares `(int, int)` pairs. -/
def ltKey (a b : Nat × Int) : Bool :=
  a.1 < b.1 || (a.1 == b.1 && decide (a.2 < b.2))

def keyOf (c : CatalogProduct) : Nat × Int := raritySortKey c.rarity

/-- Insert `x` after every element whose key is not strictly greater, which
is how a stable ascending sort places equal keys in input order. -/
def insertByRarity (x : CatalogProduct) : List CatalogProduct → List CatalogProduct
  | [] => [x]
  | y :: ys => if ltKey (keyOf x) (keyOf y) then x :: y :: ys else y :: insertByRarity x ys

/-- `sorted(filtered, key=lambda c: _rarity_sort_key(c.get("rarity")))`:
a stable ascending sort. -/
def sortByRarity (l : List CatalogProduct) : List CatalogProduct :=
  l.foldl (fun acc x => insertByRarity x acc) []

/- ===== `_match_product_for_record` ===== -/

/-- Outcome of one narrowing block: an early `return` of a product id, or
the working candidate set for the next stage. -/
inductive StageOut where
  | done (pid : Int)
  | cont (cands : List CatalogProduct)
deriving DecidableEq

/-- The `rarity_phrase` value: first parenthesized phrase of the title,
stripped and lowercased. -/
def rarityPhraseOf (title : String) : Option String :=
  match firstPhrase title with
  | some p => some (pyLower (pyStrip p))
  | none => none

/-- The rarity-phrase narrowing block (`if rarity_phrase:`). -/
def phraseFilterStage (phrase : Option String) (filtered : List CatalogProduct) :
    StageOut :=
  if pyTruthyStr phrase then
    let rf := filtered.filter (fun c => rarityStringsEqual c.rarity phrase)
    match rf with
    | [c] => StageOut.done c.product_id
    | [] => StageOut.cont filtered
    | _ => StageOut.cont rf
  else StageOut.cont filtered

/-- The rarity-hint narrowing block (`if len(filtered) > 1 and hint:`). -/
def hintFilterStage (hint : Option String) (filtered : List CatalogProduct) :
    StageOut :=
  if 1 < filtered.length && pyTruthyStr hint then
    let rf := filtered.filter (fun c => rarityMatchesHint c.rarity hint)
    match rf with
    | [c] => StageOut.done c.product_id
    | [] => StageOut.cont filtered
    | _ => StageOut.cont rf
  else StageOut.cont filtered

/-- Lines 481-494 of the source: the single-survivor return and the sorted
deterministic fallback, with the unable-to-match diagnostic. -/
def finalizeMatch (title number : String) (filtered : List CatalogProduct) :
    Option Int × List LogEvent :=
  match filtered with
  | [c] => (some c.product_id, [])
  | _ =>
    match sortByRarity filtered with
    | c :: _ => (some c.product_id, [])
    | [] => (none, [LogEvent.unableToMatch title number])

/-- Lines 457-494 of the source: the `if len(filtered) > 1:` narrowing block
(rarity phrase, then rarity hint) followed by `finalizeMatch`. -/
def matchLaterStages (rec : VendorRecord) (number : String)
    (filtered : List CatalogProduct) : Option Int × List LogEvent :=
  if 1 < filtered.length then
    let phrase := rarityPhraseOf rec.title
    let hint := rec.metaRarityHint
    match phraseFilterStage phrase filtered with
    | StageOut.done pid => (some pid, [])
    | StageOut.cont f2 =>
      match hintFilterStage hint f2 with
      | StageOut.done pid => (some pid, [])
      | StageOut.cont f3 => finalizeMatch rec.title number f3
  else finalizeMatch rec.title number filtered

/-- Membership test `c.get("group_id") in group_ids` (a missing or null
group id is in no set). -/
def groupMemberPred (gids : List Int) (c : CatalogProduct) : Bool :=
  match c.group_id with
  | some g => gids.contains g
  | none => false

/-- The group-narrowing block (`if group_ids:`), then the later stages. -/
def groupNarrow (rec : VendorRecord) (number : String)
    (candidates : List CatalogProduct) (groupIds : Option (List Int)) :
    Option Int × List LogEvent :=
  match groupIds with
  | some gids =>
    if gids.isEmpty then matchLaterStages rec number candidates
    else
      let filtered := candidates.filter (groupMemberPred gids)
      match filtered with
      | [c] => (some c.product_id, [])
      | f => matchLaterStages rec number f
  | none => matchLaterStages rec number candidates

/-- `_match_product_for_record` after a successful `byNumber` lookup:
the `if not candidates` / `len(candidates) == 1` guards, then narrowing. -/
def matchWithCandidates (rec : VendorRecord) (number : String)
    (gbn : List (String × List Int)) (candidates : List CatalogProduct) :
    Option Int × List LogEvent :=
  match candidates with
  | [] => (none, [LogEvent.noProductsForNumber number rec.title])
  | [c] => (some c.product_id, [])
  | cs => groupNarrow rec number cs (resolveGroupIds rec gbn).1

/-- `_match_product_for_record`: returns the matched product id (or `none`)
together with the diagnostic log lines it prints. -/
def matchProductForRecord (rec : VendorRecord)
    (productsByNumber : List (String × List CatalogProduct))
    (groupIdsByName : List (String × List Int)) : Option Int × List LogEvent :=
  match rec.metaNumber with
  | none => (none, [LogEvent.noProductNumber rec.title])
  | some number =>
    if number = "" then (none, [LogEvent.noProductNumber rec.title])
    else
      match productsByNumber.lookup (pyUpper number) with
      | none => (none, [LogEvent.noProductsForNumber number rec.title])
      | some cands => matchWithCandidates rec number groupIdsByName cands

/- ===== `_dedupe_vendor_records` ===== -/

/-- The `(record.get("vendor"), record.get("title"))` dict key. -/
def recKey (r : VendorRecord) : String × String := (r.vendor, r.title)

/-- One `deduped[key] = record` assignment on an insertion-ordered dict:
an existing key keeps its position and takes the new value, a new key is
appended. -/
def dedupeInsert (acc : List ((String × String) × VendorRecord))
    (r : VendorRecord) : List ((String × String) × VendorRecord) :=
  if acc.any (fun p => p.1 == recKey r) then
    acc.map (fun p => if p.1 == recKey r then (p.1, r) else p)
  else acc ++ [(recKey r, r)]

/-- `_dedupe_vendor_records`: build the insertion-ordered dict, then
`list(deduped.values())`. -/
def dedupeVendorRecords (records : List VendorRecord) : List VendorRecord :=
  (records.foldl dedupeInsert []).map Prod.snd

/- ===== Spec-side definition and concrete instances used by the theorems ===== -/

/-- Priority index exactly as the spec words it: ranks `lr`, `r`, `u`, `c`
in that order and puts any other base after all four. -/
def specPriorityIdx : Option String → Nat
  | none => 4
  | some s =>
    if s = "lr" then 0
    else if s = "r" then 1
    else if s = "u" then 2
    else if s = "c" then 3
    else 4

def charAznableTitle : String := "Char Aznable (HG Promo) GD01-118 [Gundam Starter]"

def mkListing (v t : String) (n g h : Option String) : VendorRecord :=
  ⟨v, t, n, g, h, none, none, none, none, none⟩

/-- C1 scenario: two candidates for the code, a group hint that resolves to
a non-empty id set containing neither candidate's group. -/
def recC1 : VendorRecord :=
  mkListing "kanzengames.com" "Foo AB01-001 [GroupX]" (some "AB01-001") (some "GroupX") none

def candsC1 : List CatalogProduct := [⟨1, some 10, some "R"⟩, ⟨2, some 11, some "C"⟩]

def pbnC1 : List (String × List CatalogProduct) := [("AB01-001", candsC1)]

def gbnC1 : List (String × List Int) := [("groupx", [99])]

/-- C2 scenario: exactly one candidate for the code, while the group hint
and the foil hint point at a different product of the index. -/
def recC2 : VendorRecord :=
  mkListing "kanzengames.com" "Bar (LR) CD02-002 [Other Group] Foil"
    (some "CD02-002") (some "Other Group") (some "foil")

def prodC2 : CatalogProduct := ⟨7, some 5, some "C"⟩

def pbnC2 : List (String × List CatalogProduct) :=
  [("CD02-002", [prodC2]), ("EF03-003", [⟨8, some 999, some "LR+"⟩])]

def gbnC2 : List (String × List Int) := [("other group", [999])]

/-- C5 scenario: three candidates with rarities C, R, LR and no
disambiguating signal in the listing. -/
def recC5 : VendorRecord :=
  mkListing "kanzengames.com" "Foo AB01-001" (some "AB01-001") none none

def candsC5 : List CatalogProduct :=
  [⟨1, some 10, some "C"⟩, ⟨2, some 10, some "R"⟩, ⟨3, some 10, some "LR"⟩]

def pbnC5 : List (String × List CatalogProduct) := [("AB01-001", candsC5)]

/-- C6 scenarios: a listing without an extracted code, and one whose code is
absent from the index. -/
def recC6a : VendorRecord := mkListing "v" "Random Promo Card" none none none

def recC6b : VendorRecord := mkListing "v" "Zed ZZ99-999" (some "ZZ99-999") none none

/-- C7 scenario: two listings with the same (vendor, title) key and
different prices. -/
def recC7a : VendorRecord := ⟨"v", "t", none, none, none, none, none, some 1, none, none⟩

def recC7b : VendorRecord := ⟨"v", "t", none, none, none, none, none, some 2, none, none⟩

/-- C8 scenario: two foil-marked candidates among three. -/
def candsC8 : List CatalogProduct :=
  [⟨1, some 10, some "C"⟩, ⟨2, some 10, some "R+"⟩, ⟨3, some 10, some "Rare Foil"⟩]

/-- Candidate lists sorted ascending by `_rarity_sort_key`. -/
def SortedByKey (l : List CatalogProduct) : Prop :=
  l.Pairwise (fun a b => ltKey (keyOf b) (keyOf a) = false)

/-- Every dict entry built by `dedupeInsert` stores its own record's key. -/
def KeyConsistent (acc : List ((String × String) × VendorRecord)) : Prop :=
  ∀ p ∈ acc, p.1 = recKey p.2

/-- The last input record carrying the key `k`, if any. -/
def lastWithKey (rs : List VendorRecord) (k : String × String) : Option VendorRecord :=
  (rs.filter (fun r => recKey r == k)).getLast?

/- ===== Theorems ===== -/

/-- C9: `_convert_to_usd` returns null for every price value, currency and
rates table (its conversion logic is dead code), so the assembled
`market_price`, `low_price` and `high_price` fields always equal the parsed
vendor-native numeric values (or null), never a converted amount. -/
theorem c9_convert_to_usd_dead :
    (∀ (v : Option Rat) (c : String) (rates : List (String × Rat)),
      convertToUsd v c rates = none) ∧
    (∀ (ps pm px : Option Rat) (rates : List (String × Rat)),
      assembledPrices ps pm px rates = (ps, pm, px)) := by
  constructor
  · intro v c rates
    cases v <;> rfl
  · intro ps pm px rates
    cases ps <;> cases pm <;> cases px <;> rfl

/-- C4: `_rarity_strings_equal a b` is true iff both sides normalize to the
same non-null base and the same plus count; in particular
`equal("LR+", "Legendary Rare+")` holds and `equal("LR+", "Legendary Rare")`
does not. -/
theorem c4_rarity_equal_iff :
    (∀ a b, rarityStringsEqual a b = true ↔
      ∃ base pc, normalizeRarityValue a = (some base, pc) ∧
        normalizeRarityValue b = (some base, pc)) ∧
    rarityStringsEqual (some "LR+") (some "Legendary Rare+") = true ∧
    rarityStringsEqual (some "LR+") (some "Legendary Rare") = false := by
  refine ⟨?_, by decide, by decide⟩
  intro a b
  rcases hA : normalizeRarityValue a with ⟨ba, pa⟩
  rcases hB : normalizeRarityValue b with ⟨bb, pb⟩
  simp only [rarityStringsEqual, hA, hB]
  cases ba with
  | none => cases bb <;> simp
  | some x =>
    cases bb with
    | none => simp
    | some y =>
      simp only [Option.isSome_some, Bool.true_and, Bool.and_eq_true, beq_iff_eq,
        Option.some.injEq, Prod.mk.injEq]
      constructor
      · rintro ⟨h1, h2⟩
        exact ⟨x, pa, ⟨rfl, rfl⟩, h1.symm, h2.symm⟩
      · rintro ⟨base, pc, ⟨hx, hp⟩, hy, hq⟩
        subst hx; subst hp
        exact ⟨hy.symm, hq.symm⟩

/-- C2: when the `byNumber` entry of the uppercased code holds exactly one
product, the matcher returns that product's id with no diagnostic, whatever
the listing's group label, rarity phrase or foil hint say. -/
theorem c2_single_candidate_short_circuit :
    ∀ (rec : VendorRecord) (pbn : List (String × List CatalogProduct))
      (gbn : List (String × List Int)) (n : String) (p : CatalogProduct),
      rec.metaNumber = some n → n ≠ "" →
      pbn.lookup (pyUpper n) = some [p] →
      matchProductForRecord rec pbn gbn = (some p.product_id, []) := by
  intro rec pbn gbn n p h1 h2 h3
  simp only [matchProductForRecord, h1]
  rw [if_neg h2, h3]
  rfl

/-- C2 witness: the single candidate wins although the listing's group hint
and foil hint would pick the other indexed product. -/
theorem c2_single_candidate_witness :
    matchProductForRecord recC2 pbnC2 gbnC2 = (some 7, []) :=
  c2_single_candidate_short_circuit recC2 pbnC2 gbnC2 "CD02-002" prodC2
    rfl (by decide) (by decide)

/-- C6: the matcher is a total function and the two no-match cases return
null as a value together with a single diagnostic event: no extracted code
yields the extraction-miss log, and a code absent from (or empty in) the
`byNumber` index yields the no-products-found log. -/
theorem c6_no_match_returns_null :
    ∀ (rec : VendorRecord) (pbn : List (String × List CatalogProduct))
      (gbn : List (String × List Int)),
      (pyTruthyStr rec.metaNumber = false →
        matchProductForRecord rec pbn gbn = (none, [LogEvent.noProductNumber rec.title])) ∧
      (∀ n, rec.metaNumber = some n → n ≠ "" →
        (pbn.lookup (pyUpper n) = none ∨ pbn.lookup (pyUpper n) = some []) →
        matchProductForRecord rec pbn gbn =
          (none, [LogEvent.noProductsForNumber n rec.title])) := by
  intro rec pbn gbn
  constructor
  · intro h
    rcases hn : rec.metaNumber with _ | n
    · simp only [matchProductForRecord, hn]
    · rw [hn] at h
      have h0 : n = "" := by simpa [pyTruthyStr] using h
      simp only [matchProductForRecord, hn]
      rw [if_pos h0]
  · intro n h1 h2 h3
    simp only [matchProductForRecord, h1]
    rw [if_neg h2]
    rcases h3 with h3 | h3 <;> (rw [h3]; try rfl)

/-- C6 witness: a listing without a code and a listing whose code misses the
index both yield null plus the corresponding log event. -/
theorem c6_no_match_witness :
    matchProductForRecord recC6a pbnC5 [] = (none, [LogEvent.noProductNumber "Random Promo Card"]) ∧
    matchProductForRecord recC6b pbnC5 [] =
      (none, [LogEvent.noProductsForNumber "ZZ99-999" "Zed ZZ99-999"]) :=
  ⟨(c6_no_match_returns_null recC6a pbnC5 []).1 (by decide),
   (c6_no_match_returns_null recC6b pbnC5 []).2 "ZZ99-999" rfl (by decide) (Or.inl (by decide))⟩

/-- C8: both hint values use one predicate — rarity (lowercased) contains
"foil" or ends with "+" — and the stage returns the unique match, narrows to
the matches when several, and keeps the prior working set when none. -/
theorem c8_rarity_hint_stage :
    (∀ r, rarityMatchesHint r (some "holofoil") = rarityMatchesHint r (some "foil")) ∧
    (∀ s, rarityMatchesHint (some s) (some "foil") =
      (containsSub "foil" (pyLower s) || pyEndsWith (pyLower s) "+")) ∧
    (∀ (hint : Option String) (filtered : List CatalogProduct),
      1 < filtered.length → pyTruthyStr hint = true →
      (∀ c, filtered.filter (fun p => rarityMatchesHint p.rarity hint) = [c] →
        hintFilterStage hint filtered = StageOut.done c.product_id) ∧
      (∀ c c2 rest,
        filtered.filter (fun p => rarityMatchesHint p.rarity hint) = c :: c2 :: rest →
        hintFilterStage hint filtered = StageOut.cont (c :: c2 :: rest)) ∧
      (filtered.filter (fun p => rarityMatchesHint p.rarity hint) = [] →
        hintFilterStage hint filtered = StageOut.cont filtered)) := by
  refine ⟨?_, ?_, ?_⟩
  · intro r
    rcases r with _ | r
    · rfl
    · by_cases hr : r = "" <;> simp [rarityMatchesHint, hr]
  · intro s
    by_cases hs : s = ""
    · subst hs; decide
    · simp [rarityMatchesHint, hs]
  · intro hint filtered h1 h2
    have hc : (decide (1 < filtered.length) && pyTruthyStr hint) = true := by
      simp [h1, h2]
    refine ⟨?_, ?_, ?_⟩
    · intro c hfil
      simp only [hintFilterStage, hc, if_true, hfil]
    · intro c c2 rest hfil
      simp only [hintFilterStage, hc, if_true, hfil]
    · intro hfil
      simp only [hintFilterStage, hc, if_true, hfil]

/-- C8 witness: among three candidates the two foil-marked ones ("R+" and
"Rare Foil") survive the hint stage. -/
theorem c8_rarity_hint_witness :
    hintFilterStage (some "holofoil") candsC8 =
      StageOut.cont [⟨2, some 10, some "R+"⟩, ⟨3, some 10, some "Rare Foil"⟩] :=
  ((c8_rarity_hint_stage.2.2 (some "holofoil") candsC8 (by decide) (by decide)).2.1
    ⟨2, some 10, some "R+"⟩ ⟨3, some 10, some "Rare Foil"⟩ [] (by decide))

/-- C10 counterexample: the empty string is a non-null label with no colon,
yet `_parse_401_group_label("")` leaves all three components null, while the
claim asserts `full` equals the trimmed label (the empty string). -/
theorem c10_empty_label_counterexample :
    splitOnceColon "" = none ∧
    parse401GroupLabel (some "") = ⟨none, none, none⟩ ∧
    parse401GroupLabel (some "") ≠ ⟨none, none, some (pyStrip "")⟩ := by
  decide

/-- C10 amended: for every non-null, NON-EMPTY label containing no colon the
parser returns a null abbreviation, the trimmed label as name (null when
blank after trimming) and the trimmed label as full; a null label (and,
per the counterexample, also the empty label) yields all-null components. -/
theorem c10_no_colon_label :
    (∀ s, s ≠ "" → splitOnceColon s = none →
      parse401GroupLabel (some s) =
        ⟨none, if pyStrip s = "" then none else some (pyStrip s), some (pyStrip s)⟩) ∧
    parse401GroupLabel none = ⟨none, none, none⟩ := by
  constructor
  · intro s hs hc
    simp only [parse401GroupLabel]
    rw [if_neg hs, hc]
  · rfl

/-- C10 witness: a blank, colon-free label gets a null name and an empty
(trimmed) full component. -/
theorem c10_no_colon_witness :
    parse401GroupLabel (some "   ") =
      ⟨none, if pyStrip "   " = "" then none else some (pyStrip "   "), some (pyStrip "   ")⟩ :=
  c10_no_colon_label.1 "   " (by decide) (by decide)

/-- Scanning minimality: a successful `re.search` scan finds a match at the
first matching position. -/
theorem scanFirst_min (f : Nat → Option String) :
    ∀ fuel i s, scanFirst f fuel i = some s →
      ∃ j, i ≤ j ∧ f j = some s ∧ ∀ k, i ≤ k → k < j → f k = none := by
  intro fuel
  induction fuel with
  | zero =>
    intro i s h
    simp [scanFirst] at h
  | succ n ih =>
    intro i s h
    simp only [scanFirst] at h
    rcases hf : f i with _ | m
    · rw [hf] at h
      obtain ⟨j, hij, hj, hmin⟩ := ih (i + 1) s h
      refine ⟨j, by omega, hj, fun k hk1 hk2 => ?_⟩
      rcases Nat.eq_or_lt_of_le hk1 with hk | hk
      · rw [← hk]; exact hf
      · exact hmin k (by omega) hk2
    · rw [hf] at h
      cases h
      exact ⟨i, le_rfl, hf, fun k hk1 hk2 => by omega⟩

/-- Scanning completeness: a match at any in-range position makes the scan
succeed. -/
theorem scanFirst_found (f : Nat → Option String) :
    ∀ fuel i j m, f j = some m → i ≤ j → j < i + fuel →
      (scanFirst f fuel i).isSome = true := by
  intro fuel
  induction fuel with
  | zero =>
    intro i j m hj h1 h2
    omega
  | succ n ih =>
    intro i j m hj h1 h2
    simp only [scanFirst]
    rcases hf : f i with _ | m0
    · have hne : i ≠ j := by
        intro he
        rw [he, hj] at hf
        cases hf
      exact ih (i + 1) j m hj (by omega) (by omega)
    · simp

/-- A strict-pattern match needs eight characters, so its position is always
inside the scan range. -/
theorem matchStrictAt_le (s : List Char) (i : Nat) (m : String) :
    matchStrictAt s i = some m → i + 8 ≤ s.length := by
  intro h
  unfold matchStrictAt at h
  split at h
  · rename_i a b c d e f g h8 rest heq
    have hlen : (s.drop i).length = 8 + rest.length := by
      rw [heq]; simp only [List.length_cons]; omega
    rw [List.length_drop] at hlen
    omega
  · cases h

/-- C3: the strict code pattern is tried first and its first occurrence
wins; the looser pattern is used only when the strict one has no match; on
the Char Aznable title the extracted number is GD01-118. -/
theorem c3_number_extraction :
    (∀ t s, firstStrict t = some s → (extractTitleMetadata t).number = some s) ∧
    (∀ t, firstStrict t = none → (extractTitleMetadata t).number = firstLoose t) ∧
    (∀ t s, firstStrict t = some s →
      ∃ j, matchStrictAt t.toList j = some s ∧
        ∀ k, k < j → matchStrictAt t.toList k = none) ∧
    (∀ t i m, matchStrictAt t.toList i = some m → (firstStrict t).isSome = true) ∧
    (extractTitleMetadata charAznableTitle).number = some "GD01-118" := by
  refine ⟨?_, ?_, ?_, ?_, ?_⟩
  · intro t s h
    simp [extractTitleMetadata, h]
  · intro t h
    simp [extractTitleMetadata, h]
  · intro t s h
    obtain ⟨j, h0, hj, hmin⟩ := scanFirst_min _ _ _ _ h
    exact ⟨j, hj, fun k hk => hmin k (Nat.zero_le k) hk⟩
  · intro t i m h
    have hle := matchStrictAt_le _ _ _ h
    exact scanFirst_found _ _ 0 i m h (Nat.zero_le i) (by omega)
  · decide

/-- C3 witness: the strict-first rule applied to the Char Aznable title. -/
theorem c3_number_witness :
    (extractTitleMetadata charAznableTitle).number = some "GD01-118" :=
  c3_number_extraction.1 charAznableTitle "GD01-118" (by decide)

/-- The strict key order as a proposition. -/
theorem ltKey_iff (a b : Nat × Int) :
    ltKey a b = true ↔ (a.1 < b.1 ∨ (a.1 = b.1 ∧ a.2 < b.2)) := by
  rcases a with ⟨a1, a2⟩
  rcases b with ⟨b1, b2⟩
  simp [ltKey]

/-- Strict key order is irreflexive. -/
theorem ltKey_irrefl (a : Nat × Int) : ltKey a a = false := by
  rcases ha : ltKey a a
  · rfl
  · exfalso
    rcases (ltKey_iff a a).mp ha with p | ⟨pe, pl⟩ <;> omega

/-- Strict key order is asymmetric. -/
theorem ltKey_asymm (a b : Nat × Int) (h : ltKey a b = true) : ltKey b a = false := by
  rcases hba : ltKey b a
  · rfl
  · exfalso
    have p1 := (ltKey_iff a b).mp h
    have p2 := (ltKey_iff b a).mp hba
    rcases p1 with p1 | ⟨pe, pl⟩ <;> rcases p2 with p2 | ⟨qe, ql⟩ <;> omega

/-- Strict key order is transitive across a non-inversion. -/
theorem ltKey_cross (a b c : Nat × Int) (h1 : ltKey a b = true)
    (h2 : ltKey c b = false) : ltKey c a = false := by
  rcases hca : ltKey c a
  · rfl
  · exfalso
    have p1 := (ltKey_iff a b).mp h1
    have p3 := (ltKey_iff c a).mp hca
    have p2 : ltKey c b = true := by
      rw [ltKey_iff]
      rcases p1 with p1 | ⟨pe, pl⟩ <;> rcases p3 with p3 | ⟨qe, ql⟩
      · exact Or.inl (by omega)
      · exact Or.inl (by omega)
      · exact Or.inl (by omega)
      · exact Or.inr ⟨by omega, by omega⟩
    rw [p2] at h2
    cases h2

theorem mem_insertByRarity (x a : CatalogProduct) :
    ∀ l, a ∈ insertByRarity x l ↔ a = x ∨ a ∈ l := by
  intro l
  induction l with
  | nil => simp [insertByRarity]
  | cons y ys ih =>
    simp only [insertByRarity]
    by_cases h : ltKey (keyOf x) (keyOf y) = true
    · rw [if_pos h]
      simp [List.mem_cons]
    · rw [if_neg h]
      simp only [List.mem_cons, ih]
      tauto

theorem insertByRarity_sorted (x : CatalogProduct) :
    ∀ l, SortedByKey l → SortedByKey (insertByRarity x l) := by
  intro l
  induction l with
  | nil =>
    intro _
    simp [SortedByKey, insertByRarity]
  | cons y ys ih =>
    intro hs
    obtain ⟨hy, hys⟩ := List.pairwise_cons.mp hs
    simp only [insertByRarity]
    by_cases h : ltKey (keyOf x) (keyOf y) = true
    · rw [if_pos h]
      refine List.pairwise_cons.mpr ⟨?_, hs⟩
      intro b hb
      rcases List.mem_cons.mp hb with rfl | hb
      · exact ltKey_asymm _ _ h
      · exact ltKey_cross _ _ _ h (hy b hb)
    · rw [if_neg h]
      refine List.pairwise_cons.mpr ⟨?_, ih hys⟩
      intro b hb
      rcases (mem_insertByRarity x b ys).mp hb with rfl | hb
      · exact Bool.not_eq_true _ ▸ (Bool.eq_false_iff.mpr h)
      · exact hy b hb

theorem sortByRarity_invariant :
    ∀ (l acc : List CatalogProduct), SortedByKey acc →
      SortedByKey (l.foldl (fun acc x => insertByRarity x acc) acc) ∧
      (∀ a, a ∈ l.foldl (fun acc x => insertByRarity x acc) acc ↔ a ∈ acc ∨ a ∈ l) := by
  intro l
  induction l with
  | nil =>
    intro acc h
    exact ⟨h, by simp⟩
  | cons x xs ih =>
    intro acc h
    simp only [List.foldl_cons]
    obtain ⟨hs, hm⟩ := ih (insertByRarity x acc) (insertByRarity_sorted x acc h)
    refine ⟨hs, fun a => ?_⟩
    rw [hm a, mem_insertByRarity]
    simp only [List.mem_cons]
    tauto

/-- C5: the `_rarity_sort_key` tuple is exactly (spec priority index of the
base, negated plus count); the fallback's stable sort puts a key-minimal
candidate first; `finalizeMatch` returns the first sorted candidate's id;
and on candidates C, R, LR with no other signal the matcher returns the LR
candidate. -/
theorem c5_fallback_ordering :
    (∀ v, raritySortKey v =
      (specPriorityIdx (normalizeRarityValue v).1, -((normalizeRarityValue v).2 : Int))) ∧
    (∀ l c rest, sortByRarity l = c :: rest →
      c ∈ l ∧ ∀ x ∈ l, ltKey (keyOf x) (keyOf c) = false) ∧
    (∀ t n l c rest, ¬ l.length = 1 → sortByRarity l = c :: rest →
      finalizeMatch t n l = (some c.product_id, [])) ∧
    matchProductForRecord recC5 pbnC5 [] = (some 3, []) := by
  refine ⟨?_, ?_, ?_, by decide⟩
  · intro v
    rcases hv : normalizeRarityValue v with ⟨b, p⟩
    simp only [raritySortKey, hv]
    congr 1
    rcases b with _ | s
    · rfl
    · by_cases h1 : s = "lr"
      · subst h1; rfl
      · by_cases h2 : s = "r"
        · subst h2; rfl
        · by_cases h3 : s = "u"
          · subst h3; rfl
          · by_cases h4 : s = "c"
            · subst h4; rfl
            · have e1 : (s == "lr") = false := beq_eq_false_iff_ne.mpr h1
              have e2 : (s == "r") = false := beq_eq_false_iff_ne.mpr h2
              have e3 : (s == "u") = false := beq_eq_false_iff_ne.mpr h3
              have e4 : (s == "c") = false := beq_eq_false_iff_ne.mpr h4
              simp [rarityPriorityMap, rarityPriority, List.lookup, specPriorityIdx,
                e1, e2, e3, e4, h1, h2, h3, h4]
  · intro l c rest hsort
    obtain ⟨hs, hm⟩ := sortByRarity_invariant l [] (by simp [SortedByKey])
    rw [show l.foldl (fun acc x => insertByRarity x acc) [] = sortByRarity l from rfl] at hs hm
    rw [hsort] at hs hm
    constructor
    · have : c ∈ c :: rest := List.mem_cons_self c rest
      rcases (hm c).mp this with h | h
      · cases h
      · exact h
    · intro x hx
      have hx2 : x ∈ c :: rest := (hm x).mpr (Or.inr hx)
      rcases List.mem_cons.mp hx2 with rfl | hx2
      · exact ltKey_irrefl _
      · exact (List.pairwise_cons.mp hs).1 x hx2
  · intro t n l c rest h1 h2
    rcases l with _ | ⟨a, _ | ⟨b, t2⟩⟩
    · simp [sortByRarity] at h2
    · exact absurd rfl h1
    · show (match sortByRarity (a :: b :: t2) with
        | c :: _ => (some c.product_id, [])
        | [] => (none, [LogEvent.unableToMatch t n])) = (some c.product_id, [])
      rw [h2]

/-- C5 witness: in the C/R/LR scenario the LR candidate heads the sorted
fallback list, is one of the candidates, and is key-minimal. -/
theorem c5_fallback_witness :
    (⟨3, some 10, some "LR"⟩ : CatalogProduct) ∈ candsC5 ∧
    ltKey (keyOf ⟨1, some 10, some "C"⟩) (keyOf ⟨3, some 10, some "LR"⟩) = false ∧
    finalizeMatch "Foo AB01-001" "AB01-001" candsC5 = (some 3, []) := by
  have h := c5_fallback_ordering.2.1 candsC5 ⟨3, some 10, some "LR"⟩
    [⟨2, some 10, some "R"⟩, ⟨1, some 10, some "C"⟩] (by decide)
  have h2 := c5_fallback_ordering.2.2.1 "Foo AB01-001" "AB01-001" candsC5
    ⟨3, some 10, some "LR"⟩ [⟨2, some 10, some "R"⟩, ⟨1, some 10, some "C"⟩]
    (by decide) (by decide)
  exact ⟨h.1, h.2 _ (by decide), h2⟩

/-- C1 counterexample: a listing whose code has two candidates and whose
group hint resolves to the non-empty id set [99] matching neither candidate.
The filter yields zero candidates, yet the matcher does NOT keep the
unfiltered set and run the later narrowing stages on it: it returns null
with the unable-to-match diagnostic, while the later stages applied to the
unfiltered candidates would return product 1. -/
theorem c1_keep_unfiltered_counterexample :
    recC1.metaNumber = some "AB01-001" ∧
    pbnC1.lookup (pyUpper "AB01-001") = some candsC1 ∧
    1 < candsC1.length ∧
    (resolveGroupIds recC1 gbnC1).1 = some [99] ∧
    candsC1.filter (groupMemberPred [99]) = [] ∧
    matchProductForRecord recC1 pbnC1 gbnC1 ≠ matchLaterStages recC1 "AB01-001" candsC1 ∧
    matchProductForRecord recC1 pbnC1 gbnC1 =
      (none, [LogEvent.unableToMatch "Foo AB01-001 [GroupX]" "AB01-001"]) ∧
    matchLaterStages recC1 "AB01-001" candsC1 = (some 1, []) := by
  decide

/-- C1 amended: when the code lookup yields more than one candidate, the
group hint resolves to a non-empty id set, and filtering by that set yields
zero candidates, the matcher proceeds with the EMPTY filtered set — the
later narrowing stages are skipped and it logs unable-to-match and returns
null (it does not keep the unfiltered candidates). -/
theorem c1_group_filter_empty_no_match :
    ∀ (rec : VendorRecord) (pbn : List (String × List CatalogProduct))
      (gbn : List (String × List Int)) (n : String) (cs : List CatalogProduct)
      (gids : List Int),
      rec.metaNumber = some n → n ≠ "" →
      pbn.lookup (pyUpper n) = some cs → 1 < cs.length →
      (resolveGroupIds rec gbn).1 = some gids → gids ≠ [] →
      cs.filter (groupMemberPred gids) = [] →
      matchProductForRecord rec pbn gbn =
        (none, [LogEvent.unableToMatch rec.title n]) := by
  intro rec pbn gbn n cs gids h1 h2 h3 h4 h5 h6 h7
  simp only [matchProductForRecord, h1]
  rw [if_neg h2, h3]
  rcases cs with _ | ⟨a, _ | ⟨b, t⟩⟩
  · simp at h4
  · simp at h4
  · simp only [matchWithCandidates]
    rw [h5]
    simp only [groupNarrow]
    have hne : gids.isEmpty = false := by
      rcases gids with _ | _
      · exact absurd rfl h6
      · rfl
    rw [hne]
    simp only [Bool.false_eq_true, if_false]
    rw [h7]
    rfl

/-- C1 witness for the amended claim, at the counterexample instance. -/
theorem c1_group_filter_empty_witness :
    matchProductForRecord recC1 pbnC1 gbnC1 =
      (none, [LogEvent.unableToMatch recC1.title "AB01-001"]) :=
  c1_group_filter_empty_no_match recC1 pbnC1 gbnC1 "AB01-001" candsC1 [99]
    rfl (by decide) (by decide) (by decide) (by decide) (by decide) (by decide)

/-- Updating values under key `recKey r` does not change the entries
filtered under a different key. -/
theorem filter_update_ne (r : VendorRecord) (k : String × String)
    (hk : recKey r ≠ k) :
    ∀ acc : List ((String × String) × VendorRecord),
      (acc.map (fun p => if p.1 == recKey r then (p.1, r) else p)).filter
          (fun p => p.1 == k) =
        acc.filter (fun p => p.1 == k) := by
  intro acc
  induction acc with
  | nil => rfl
  | cons p ps ih =>
    simp only [List.map_cons]
    by_cases h1 : (p.1 == recKey r) = true
    · have hpk : (p.1 == k) = false := by
        have hp : p.1 = recKey r := beq_iff_eq.mp h1
        exact beq_eq_false_iff_ne.mpr (hp ▸ hk)
      rw [if_pos h1]
      simp only [List.filter_cons]
      simp only [hpk]
      exact ih
    · rw [if_neg h1]
      by_cases h2 : (p.1 == k) = true
      · simp only [List.filter_cons]
        simp only [h2, if_true]
        rw [ih]
      · simp only [List.filter_cons]
        simp only [Bool.not_eq_true] at h2
        simp only [h2]
        exact ih

/-- If a key does not occur, updating under it leaves nothing to filter. -/
theorem filter_update_not_mem (r : VendorRecord)
    (k : String × String) :
    ∀ acc : List ((String × String) × VendorRecord), k ∉ acc.map Prod.fst →
      (acc.map (fun p => if p.1 == recKey r then (p.1, r) else p)).filter
          (fun p => p.1 == k) = [] := by
  intro acc
  induction acc with
  | nil => intro _; rfl
  | cons p ps ih =>
    intro hmem
    have hp : (p.1 == k) = false := by
      refine beq_eq_false_iff_ne.mpr fun he => hmem ?_
      simp [he]
    have hps : k ∉ ps.map Prod.fst := by
      intro hin
      exact hmem (by simp [hin])
    simp only [List.map_cons]
    by_cases h1 : (p.1 == recKey r) = true
    · rw [if_pos h1]
      simp only [List.filter_cons]
      simp only [hp]
      exact ih hps
    · rw [if_neg h1]
      simp only [List.filter_cons]
      simp only [hp]
      exact ih hps

/-- If a key does not occur, the filter under it is empty. -/
theorem filter_not_mem (k : String × String) :
    ∀ acc : List ((String × String) × VendorRecord), k ∉ acc.map Prod.fst →
      acc.filter (fun p => p.1 == k) = [] := by
  intro acc
  induction acc with
  | nil => intro _; rfl
  | cons p ps ih =>
    intro hmem
    have hp : (p.1 == k) = false := by
      refine beq_eq_false_iff_ne.mpr fun he => hmem ?_
      simp [he]
    simp only [List.filter_cons]
    simp only [hp]
    exact ih (fun hin => hmem (by simp [hin]))

/-- With no-duplicate keys, updating under an occurring key leaves exactly
the updated entry under that key. -/
theorem filter_update_self (r : VendorRecord) :
    ∀ acc : List ((String × String) × VendorRecord),
      (acc.map Prod.fst).Nodup → recKey r ∈ acc.map Prod.fst →
      (acc.map (fun p => if p.1 == recKey r then (p.1, r) else p)).filter
          (fun p => p.1 == recKey r) = [(recKey r, r)] := by
  intro acc
  induction acc with
  | nil => intro _ hmem; cases hmem
  | cons p ps ih =>
    intro hnd hmem
    rw [List.map_cons] at hnd hmem
    have hnd2 := List.nodup_cons.mp hnd
    simp only [List.map_cons]
    by_cases h1 : (p.1 == recKey r) = true
    · have hpk : p.1 = recKey r := beq_iff_eq.mp h1
      have htail : recKey r ∉ ps.map Prod.fst := hpk ▸ hnd2.1
      rw [if_pos h1]
      simp only [List.filter_cons]
      simp only [h1, if_true]
      rw [filter_update_not_mem r (recKey r) ps htail, hpk]
    · have hmem2 : recKey r ∈ ps.map Prod.fst := by
        rcases List.mem_cons.mp hmem with he | hin
        · exact absurd (beq_iff_eq.mpr he.symm) h1
        · exact hin
      rw [if_neg h1]
      simp only [List.filter_cons]
      simp only [Bool.not_eq_true] at h1
      simp only [h1]
      exact ih hnd2.2 hmem2

/-- Truthiness of the `key in dict` test. -/
theorem any_key_iff (r : VendorRecord)
    (acc : List ((String × String) × VendorRecord)) :
    acc.any (fun p => p.1 == recKey r) = true ↔ recKey r ∈ acc.map Prod.fst := by
  simp only [List.any_eq_true, beq_iff_eq, List.mem_map]

/-- One dict assignment, observed through a key filter: the assigned key now
maps exactly to the new record, other keys are untouched. -/
theorem dedupeInsert_filter (acc : List ((String × String) × VendorRecord))
    (r : VendorRecord) (k : String × String)
    (hnd : (acc.map Prod.fst).Nodup) :
    (dedupeInsert acc r).filter (fun p => p.1 == k) =
      if recKey r = k then [(k, r)] else acc.filter (fun p => p.1 == k) := by
  unfold dedupeInsert
  by_cases hmem : acc.any (fun p => p.1 == recKey r) = true
  · rw [if_pos hmem]
    by_cases hk : recKey r = k
    · subst hk
      rw [if_pos rfl]
      exact filter_update_self r acc hnd ((any_key_iff r acc).mp hmem)
    · rw [if_neg hk]
      exact filter_update_ne r k hk acc
  · rw [if_neg hmem]
    have hnm : recKey r ∉ acc.map Prod.fst := by
      intro hin
      exact hmem ((any_key_iff r acc).mpr hin)
    rw [List.filter_append]
    by_cases hk : recKey r = k
    · subst hk
      rw [if_pos rfl, filter_not_mem (recKey r) acc hnm]
      simp
    · rw [if_neg hk]
      have hsing : List.filter (fun p => p.1 == k) [(recKey r, r)] = [] := by
        simp [beq_eq_false_iff_ne.mpr hk]
      rw [hsing, List.append_nil]

/-- Updating values in place does not change the key sequence. -/
theorem map_fst_update (r : VendorRecord) :
    ∀ acc : List ((String × String) × VendorRecord),
      (acc.map (fun p => if p.1 == recKey r then (p.1, r) else p)).map Prod.fst =
        acc.map Prod.fst := by
  intro acc
  induction acc with
  | nil => rfl
  | cons p ps ih =>
    simp only [List.map_cons]
    by_cases h1 : (p.1 == recKey r) = true
    · rw [if_pos h1]
      rw [ih]
    · rw [if_neg h1]
      rw [ih]

/-- A dict assignment keeps the keys without duplicates. -/
theorem dedupeInsert_nodup (acc : List ((String × String) × VendorRecord))
    (r : VendorRecord) (hnd : (acc.map Prod.fst).Nodup) :
    ((dedupeInsert acc r).map Prod.fst).Nodup := by
  unfold dedupeInsert
  by_cases hmem : acc.any (fun p => p.1 == recKey r) = true
  · rw [if_pos hmem, map_fst_update r acc]
    exact hnd
  · rw [if_neg hmem, List.map_append]
    have hnm : recKey r ∉ acc.map Prod.fst := fun hin => hmem ((any_key_iff r acc).mpr hin)
    refine List.nodup_append.mpr ⟨hnd, by simp, fun a ha hb => ?_⟩
    simp only [List.map_cons, List.map_nil, List.mem_singleton] at hb
    exact hnm (hb ▸ ha)

/-- A dict assignment keeps every entry's stored key equal to its record's
key. -/
theorem dedupeInsert_keyConsistent (acc : List ((String × String) × VendorRecord))
    (r : VendorRecord) (h : KeyConsistent acc) : KeyConsistent (dedupeInsert acc r) := by
  unfold dedupeInsert
  by_cases hmem : acc.any (fun p => p.1 == recKey r) = true
  · rw [if_pos hmem]
    intro q hq
    rcases List.mem_map.mp hq with ⟨p, hp, he⟩
    by_cases h1 : (p.1 == recKey r) = true
    · rw [if_pos h1] at he
      rw [← he]
      exact beq_iff_eq.mp h1
    · rw [if_neg h1] at he
      rw [← he]
      exact h p hp
  · rw [if_neg hmem]
    intro q hq
    rcases List.mem_append.mp hq with hq | hq
    · exact h q hq
    · simp only [List.mem_singleton] at hq
      rw [hq]

/-- A non-empty list has a last element. -/
theorem getLast?_cons_ne_none (a : VendorRecord) (l : List VendorRecord) :
    (a :: l).getLast? ≠ none := by
  induction l generalizing a with
  | nil => simp
  | cons b t ih =>
    rw [List.getLast?_cons_cons]
    exact ih b

/-- Folding dict assignments over the whole batch: each key ends up mapping
to the last record of the batch carrying it, keys untouched by the batch
keep their prior entries. -/
theorem dedupe_foldl_filter :
    ∀ (rs : List VendorRecord) (acc : List ((String × String) × VendorRecord)),
      (acc.map Prod.fst).Nodup → ∀ k,
      ((rs.foldl dedupeInsert acc).filter (fun p => p.1 == k)) =
        match lastWithKey rs k with
        | some r => [(k, r)]
        | none => acc.filter (fun p => p.1 == k) := by
  intro rs
  induction rs with
  | nil =>
    intro acc hnd k
    rfl
  | cons r rest ih =>
    intro acc hnd k
    simp only [List.foldl_cons]
    rw [ih (dedupeInsert acc r) (dedupeInsert_nodup acc r hnd) k]
    rcases hlast : lastWithKey rest k with _ | r'
    · simp only [hlast]
      rw [dedupeInsert_filter acc r k hnd]
      by_cases hk : recKey r = k
      · rw [if_pos hk]
        have hcons : lastWithKey (r :: rest) k = some r := by
          unfold lastWithKey at hlast ⊢
          have hf : rest.filter (fun x => recKey x == k) = [] := by
            rcases hres : rest.filter (fun x => recKey x == k) with _ | ⟨y, ys⟩
            · rfl
            · rw [hres] at hlast
              exact absurd hlast (getLast?_cons_ne_none y ys)
          rw [List.filter_cons]
          simp only [beq_iff_eq.mpr hk, if_true]
          rw [hf]
          rfl
        rw [hcons]
      · rw [if_neg hk]
        have hcons : lastWithKey (r :: rest) k = none := by
          unfold lastWithKey at hlast ⊢
          rw [List.filter_cons]
          simp only [beq_eq_false_iff_ne.mpr hk]
          exact hlast
        rw [hcons]
    · simp only [hlast]
      have hcons : lastWithKey (r :: rest) k = some r' := by
        unfold lastWithKey at hlast ⊢
        rcases hres : rest.filter (fun x => recKey x == k) with _ | ⟨y, ys⟩
        · rw [hres] at hlast
          cases hlast
        · rw [List.filter_cons]
          by_cases hc : (recKey r == k) = true
          · simp only [hc, if_true]
            rw [hres] at hlast ⊢
            rw [List.getLast?_cons_cons]
            exact hlast
          · simp only [Bool.not_eq_true] at hc
            simp only [hc]
            exact hlast
      rw [hcons]

/-- Reading records back through a key filter commutes with dropping the
stored keys, as long as entries are key-consistent. -/
theorem filter_map_snd :
    ∀ acc : List ((String × String) × VendorRecord), KeyConsistent acc → ∀ k,
      (acc.map Prod.snd).filter (fun v => recKey v == k) =
        (acc.filter (fun p => p.1 == k)).map Prod.snd := by
  intro acc
  induction acc with
  | nil =>
    intro _ _
    rfl
  | cons p ps ih =>
    intro h k
    have hp : p.1 = recKey p.2 := h p (List.mem_cons_self p ps)
    have hps : KeyConsistent ps := fun q hq => h q (List.mem_cons_of_mem p hq)
    simp only [List.map_cons, List.filter_cons]
    by_cases hc : (recKey p.2 == k) = true
    · have hc2 : (p.1 == k) = true := by rw [hp]; exact hc
      simp only [hc, hc2, if_true]
      rw [List.map_cons, ih hps k]
    · have hc2 : ¬(p.1 == k) = true := by rw [hp]; exact hc
      simp only [Bool.not_eq_true] at hc hc2
      simp only [hc, hc2]
      exact ih hps k

theorem dedupe_foldl_keyConsistent :
    ∀ (rs : List VendorRecord) (acc), KeyConsistent acc →
      KeyConsistent (rs.foldl dedupeInsert acc) := by
  intro rs
  induction rs with
  | nil =>
    intro acc h
    exact h
  | cons r rest ih =>
    intro acc h
    exact ih (dedupeInsert acc r) (dedupeInsert_keyConsistent acc r h)

/-- C7: after `_dedupe_vendor_records` the records under each
(vendor, title) key are exactly the last input record with that key (so at
most one record per key survives), and of two records sharing a key the
later one survives. -/
theorem c7_dedupe_keeps_last :
    (∀ rs k, (dedupeVendorRecords rs).filter (fun v => recKey v == k) =
      (lastWithKey rs k).toList) ∧
    (∀ rs k, ((dedupeVendorRecords rs).filter (fun v => recKey v == k)).length ≤ 1) ∧
    dedupeVendorRecords [recC7a, recC7b] = [recC7b] := by
  have main : ∀ rs k, (dedupeVendorRecords rs).filter (fun v => recKey v == k) =
      (lastWithKey rs k).toList := by
    intro rs k
    unfold dedupeVendorRecords
    rw [filter_map_snd (rs.foldl dedupeInsert [])
      (dedupe_foldl_keyConsistent rs [] (fun p hp => absurd hp (List.not_mem_nil p))) k]
    rw [dedupe_foldl_filter rs [] (by simp) k]
    rcases hl : lastWithKey rs k with _ | r
    · simp
    · simp
  refine ⟨main, fun rs k => ?_, by decide⟩
  rw [main]
  rcases lastWithKey rs k with _ | r <;> simp
